import Mathlib

/-!
Shallow embedding of the contact-management backend (the Map-backed
Express variant: in-memory `Map` keyed by contact id, sorted listing,
binary-search point lookup) together with its field validators.

JavaScript strings are modelled as `String`, absent (`undefined`) request
fields as `none : Option String`.  The global `contacts` Map is modelled
as an association list in insertion order (`Store`), with `Map.get`,
`Map.set`, `Map.delete` translated as recursive functions that respect
the first (unique) occurrence of a key.
-/

/-- Character class of the JavaScript regular-expression `\s`
(also the character set removed by `String.prototype.trim`). -/
def jsWhitespace (c : Char) : Bool :=
  let n := c.toNat
  decide ((9 ≤ n ∧ n ≤ 13) ∨ n = 32 ∨ n = 160 ∨ n = 5760 ∨
    (8192 ≤ n ∧ n ≤ 8202) ∨ n = 8232 ∨ n = 8233 ∨ n = 8239 ∨
    n = 8287 ∨ n = 12288 ∨ n = 65279)

/-- Decimal digit, the class `[0-9]` (and `\d`). -/
def isDigitC (c : Char) : Bool :=
  decide (48 ≤ c.toNat ∧ c.toNat ≤ 57)

/-- Characters removed by the cleaning step of `validatePhone`:
the regex class `[\s\-\(\)]` (whitespace, hyphen 45, parens 40/41). -/
def stripPhoneChar (c : Char) : Bool :=
  jsWhitespace c || decide (c.toNat = 45) || decide (c.toNat = 40) ||
    decide (c.toNat = 41)

/-- Both-ends whitespace trim on a character list,
as `String.prototype.trim`. -/
def jsTrimList (l : List Char) : List Char :=
  ((l.dropWhile jsWhitespace).reverse.dropWhile jsWhitespace).reverse

/-- JavaScript `s.trim()`. -/
def jsTrim (s : String) : String :=
  String.mk (jsTrimList s.data)

/-- Truthiness of an optional JavaScript string: `undefined` and the
empty string are falsy, every other string is truthy. -/
def truthy : Option String → Bool
  | none => false
  | some s => decide (s ≠ "")

/-- The test `!x || !x.trim()` used for required string fields:
true when the field is absent, empty, or whitespace-only. -/
def isBlank : Option String → Bool
  | none => true
  | some s => decide (s = "") || decide (jsTrim s = "")

/-!  A tiny nondeterministic matcher for the two anchored regular
expressions of the source (they use only single-character classes, `?`,
`+` and `{n}`).  A `Matcher` maps an input character list to the list of
possible remainders after matching a prefix; the anchored regex accepts
a string iff the empty remainder is reachable. -/

/-- Matching step: input characters to the possible remainders. -/
def Matcher : Type := List Char → List (List Char)

/-- Match a single character of class `p`. -/
def mchar (p : Char → Bool) : Matcher := fun cs =>
  match cs with
  | [] => []
  | c :: rest => if p c then [rest] else []

/-- Sequential composition of two matchers. -/
def mseq (m1 m2 : Matcher) : Matcher := fun cs => (m1 cs).flatMap m2

/-- Zero-or-one occurrence (the regex `?`). -/
def mopt (m : Matcher) : Matcher := fun cs => cs :: m cs

/-- Remainders after consuming one or more leading characters of
class `p` (the regex `+` on a character class). -/
def mplus (p : Char → Bool) : List Char → List (List Char)
  | [] => []
  | c :: rest => if p c then rest :: mplus p rest else []

/-- Exactly `n` characters of class `p` (the regex `{n}`). -/
def mreps (p : Char → Bool) : Nat → Matcher
  | 0 => fun cs => [cs]
  | n + 1 => mseq (mchar p) (mreps p n)

/-- Run an anchored matcher on a string: accept iff some branch
consumes the whole input. -/
def mrun (m : Matcher) (s : String) : Bool :=
  (m s.data).any List.isEmpty

/-- Separator class `[-.\s]` of the phone regex. -/
def sepC (c : Char) : Bool :=
  decide (c.toNat = 45) || decide (c.toNat = 46) || jsWhitespace c

/-- The phone pattern
`^(\+?1?[-.\s]?)?\(?([0-9]{3})\)?[-.\s]?([0-9]{3})[-.\s]?([0-9]{4})$`. -/
def phoneMatcher : Matcher :=
  mseq (mopt (mseq (mopt (mchar (fun c => decide (c.toNat = 43))))
      (mseq (mopt (mchar (fun c => decide (c.toNat = 49)))) (mopt (mchar sepC)))))
    (mseq (mopt (mchar (fun c => decide (c.toNat = 40))))
      (mseq (mreps isDigitC 3)
        (mseq (mopt (mchar (fun c => decide (c.toNat = 41))))
          (mseq (mopt (mchar sepC))
            (mseq (mreps isDigitC 3)
              (mseq (mopt (mchar sepC)) (mreps isDigitC 4)))))))

/-- Acceptance of the phone regex on the original string. -/
def phoneRegexTest (s : String) : Bool := mrun phoneMatcher s

/-- Character class `[^\s@]` of the email regex
(64 is the code of the at sign). -/
def okEmailChar (c : Char) : Bool :=
  !(jsWhitespace c) && decide (c.toNat ≠ 64)

/-- The email pattern `^[^\s@]+@[^\s@]+\.[^\s@]+$`
(46 is the code of the dot). -/
def emailMatcher : Matcher :=
  mseq (mplus okEmailChar)
    (mseq (mchar (fun c => decide (c.toNat = 64)))
      (mseq (mplus okEmailChar)
        (mseq (mchar (fun c => decide (c.toNat = 46))) (mplus okEmailChar))))

/-- Acceptance of the email regex. -/
def emailRegexTest (s : String) : Bool := mrun emailMatcher s

/-- Source `validateEmail`: required, then the email regex on the
original string. -/
def validateEmail : Option String → Option String
  | none => some ("Email is required")
  | some s =>
    if s = "" ∨ jsTrim s = "" then some ("Email is required")
    else if emailRegexTest s then none
    else some ("Please enter a valid email address")

/-- Source `validatePhone`: required; strip `[\s\-\(\)]`; require at
least 10 digit characters in the cleaned string; then the phone regex
on the original string. -/
def validatePhone : Option String → Option String
  | none => some ("Phone number is required")
  | some s =>
    if s = "" ∨ jsTrim s = "" then some ("Phone number is required")
    else
      let cleaned := s.data.filter (fun c => !(stripPhoneChar c))
      let digitsOnly := cleaned.filter isDigitC
      if digitsOnly.length < 10 then
        some ("Phone number must have at least 10 digits")
      else if phoneRegexTest s then none
      else some ("Please enter a valid phone number (e.g., +1-555-123-4567 or 555-123-4567)")

/-- Source `validateAddress`: optional; if the value is truthy its
trimmed length must be at most 200 characters. -/
def validateAddress : Option String → Option String
  | none => none
  | some s =>
    if s ≠ "" ∧ 200 < (jsTrim s).length then
      some ("Address must be 200 characters or less")
    else none

/-- A contact record (also the shape of a parsed JSON request body):
six optional string fields. -/
structure Contact where
  id : Option String
  firstName : Option String
  lastName : Option String
  phone : Option String
  address : Option String
  email : Option String
deriving DecidableEq

/-- The in-memory `Map` of contacts, in insertion order. -/
abbrev Store : Type := List (String × Contact)

/-- JavaScript `Map.prototype.get`. -/
def mapGet : Store → String → Option Contact
  | [], _ => none
  | (k, v) :: rest, i => if k = i then some v else mapGet rest i

/-- JavaScript `Map.prototype.has`. -/
def mapHas (s : Store) (i : String) : Bool := (mapGet s i).isSome

/-- JavaScript `Map.prototype.set`: replace in place if the key is
present, otherwise append. -/
def mapSet : Store → String → Contact → Store
  | [], k, v => [(k, v)]
  | (k0, v0) :: rest, k, v =>
    if k0 = k then (k, v) :: rest else (k0, v0) :: mapSet rest k v

/-- JavaScript `Map.prototype.delete` (the removing part). -/
def mapDelete : Store → String → Store
  | [], _ => []
  | (k0, v0) :: rest, i =>
    if k0 = i then rest else (k0, v0) :: mapDelete rest i

/-- The validation report built by `validateContact`: at most one
message per field. -/
structure VReport where
  id : Option String
  firstName : Option String
  lastName : Option String
  email : Option String
  phone : Option String
  address : Option String
deriving DecidableEq

/-- The id rule of `validateContact`: required; trimmed length at most
10; on a new contact the trimmed id must not already be a key. -/
def idError (contacts : Store) (isNew : Bool) : Option String → Option String
  | none => some ("ID is required")
  | some s =>
    if s = "" ∨ jsTrim s = "" then some ("ID is required")
    else if 10 < (jsTrim s).length then some ("ID must be 10 characters or less")
    else if isNew && mapHas contacts (jsTrim s) then some ("ID already exists")
    else none

/-- Source `validateContact`: evaluates every field rule and collects
all failing fields into one report. -/
def validateContact (contacts : Store) (c : Contact) (isNew : Bool) : VReport :=
  { id := idError contacts isNew c.id
    firstName := if isBlank c.firstName then some ("First name is required") else none
    lastName := if isBlank c.lastName then some ("Last name is required") else none
    email := validateEmail c.email
    phone := validatePhone c.phone
    address := validateAddress c.address }

/-- The handler test `Object.keys(validationErrors).length === 0`. -/
def reportIsEmpty (r : VReport) : Bool :=
  r.id.isNone && r.firstName.isNone && r.lastName.isNone &&
    r.email.isNone && r.phone.isNone && r.address.isNone

/-- Number of entries in a report. -/
def reportCount (r : VReport) : Nat :=
  r.id.toList.length + r.firstName.toList.length + r.lastName.toList.length +
    r.email.toList.length + r.phone.toList.length + r.address.toList.length

/-- Validation as an operation on the state: the source function reads
the global Map but never writes it, so the state passes through. -/
def validateOp (contacts : Store) (c : Contact) (isNew : Bool) : VReport × Store :=
  (validateContact contacts c isNew, contacts)

/-- Lexicographic code-unit comparison of character lists, the
comparison JavaScript performs on strings with `<` and (for the plain
character range used by ids) with `localeCompare`. -/
def strLtList : List Char → List Char → Bool
  | [], [] => false
  | [], _ :: _ => true
  | _ :: _, [] => false
  | a :: as, b :: bs =>
    if a = b then strLtList as bs else decide (a.toNat < b.toNat)

/-- JavaScript `a < b` on strings. -/
def strLt (a b : String) : Bool := strLtList a.data b.data

/-- JavaScript `a <= b` on strings (total order complement). -/
def strLe (a b : String) : Bool := !(strLt b a)

/-!  The listing handler sorts with `a.id.localeCompare(b.id)`, the ICU
collation of the runtime, which is not code-unit order: in the root
collation digits sort before letters, letters sort case-insensitively
first (primary level), and a lowercase letter sorts before its own
uppercase (tertiary level) — so `"a"` sorts before `"B"`.  The model
below implements exactly this root-collation behavior on ASCII
alphanumeric strings, the fragment the claims and counterexamples
engage; characters outside it receive a fallback weight standing in
for the locale-dependent weights the runtime gives them. -/

/-- Primary collation weight: digits `0`-`9` get 0-9, letters get
10-35 case-insensitively, anything else a fallback above those. -/
def collPrimary (c : Char) : Nat :=
  if 48 ≤ c.toNat ∧ c.toNat ≤ 57 then c.toNat - 48
  else if 65 ≤ c.toNat ∧ c.toNat ≤ 90 then c.toNat - 55
  else if 97 ≤ c.toNat ∧ c.toNat ≤ 122 then c.toNat - 87
  else c.toNat + 1000

/-- Tertiary collation weight: lowercase before uppercase. -/
def collTertiary (c : Char) : Nat :=
  if 65 ≤ c.toNat ∧ c.toNat ≤ 90 then 1 else 0

/-- Lexicographic comparison of weight sequences. -/
def natListLt : List Nat → List Nat → Bool
  | [], [] => false
  | [], _ :: _ => true
  | _ :: _, [] => false
  | a :: as, b :: bs => if a = b then natListLt as bs else decide (a < b)

/-- The `localeCompare` order: primary weights first, tertiary weights
on a primary tie, code units as the final tie break (never reached on
the ASCII alphanumeric fragment, where a primary and tertiary tie
forces equal strings). -/
def localeLt (a b : String) : Bool :=
  if natListLt (a.data.map collPrimary) (b.data.map collPrimary) then true
  else if a.data.map collPrimary = b.data.map collPrimary then
    (if natListLt (a.data.map collTertiary) (b.data.map collTertiary) then true
     else if a.data.map collTertiary = b.data.map collTertiary then strLt a b
     else false)
  else false

/-- Non-positive `localeCompare`, the comparator test an ascending
comparison sort effectively applies. -/
def localeLe (a b : String) : Bool := !(localeLt b a)

/-- ASCII digit or lowercase letter. -/
def isLowerAlnumC (c : Char) : Bool :=
  decide ((48 ≤ c.toNat ∧ c.toNat ≤ 57) ∨ (97 ≤ c.toNat ∧ c.toNat ≤ 122))

/-- ASCII digit or uppercase letter. -/
def isUpperAlnumC (c : Char) : Bool :=
  decide ((48 ≤ c.toNat ∧ c.toNat ≤ 57) ∨ (65 ≤ c.toNat ∧ c.toNat ≤ 90))

/-- Outcome of `POST /contacts`. -/
inductive AddRes where
  | created
  | vfail (r : VReport)
deriving DecidableEq

/-- Outcome of `PUT /contacts/:id`. -/
inductive UpdRes where
  | updated
  | notFound
  | vfail (r : VReport)
deriving DecidableEq

/-- Outcome of `GET /contacts/:id`. -/
inductive GetRes where
  | found (c : Contact)
  | notFound
deriving DecidableEq

/-- Outcome of `DELETE /contacts/:id`. -/
inductive DelRes where
  | deleted
  | notFound
deriving DecidableEq

/-- Discriminator for the validation-failure outcome of an update. -/
def isVFail : UpdRes → Bool
  | UpdRes.vfail _ => true
  | _ => false

/-- The `POST /contacts` handler: validate the body as a new contact;
on success `contacts.set(id, contact)` keyed on the raw (untrimmed) id.
Validation guarantees the id is present on the success path, so the
`getD` default is never taken. -/
def addContact (contacts : Store) (body : Contact) : AddRes × Store :=
  let r := validateContact contacts body true
  if reportIsEmpty r then
    (AddRes.created, mapSet contacts (body.id.getD ("")) body)
  else (AddRes.vfail r, contacts)

/-- The field merge of the `PUT` handler: a truthy body field
overwrites, a falsy (absent or empty) one keeps the stored value; the
id is taken from the URL and never merged from the body. -/
def mergeContact (old body : Contact) : Contact :=
  { id := old.id
    firstName := if truthy body.firstName then body.firstName else old.firstName
    lastName := if truthy body.lastName then body.lastName else old.lastName
    phone := if truthy body.phone then body.phone else old.phone
    address := if truthy body.address then body.address else old.address
    email := if truthy body.email then body.email else old.email }

/-- The `PUT /contacts/:id` handler.  The source mutates the object
held by the Map field by field and only then validates it, so on the
validation-failure path the merged record is already in the store. -/
def updateContact (contacts : Store) (i : String) (body : Contact) : UpdRes × Store :=
  match mapGet contacts i with
  | none => (UpdRes.notFound, contacts)
  | some old =>
    let merged := mergeContact old body
    let contacts' := mapSet contacts i merged
    let r := validateContact contacts' merged false
    if reportIsEmpty r then (UpdRes.updated, contacts')
    else (UpdRes.vfail r, contacts')

/-- The `DELETE /contacts/:id` handler. -/
def deleteContact (contacts : Store) (i : String) : DelRes × Store :=
  if mapHas contacts i then (DelRes.deleted, mapDelete contacts i)
  else (DelRes.notFound, contacts)

/-- Sort key used by the listing comparator (`a.id.localeCompare(b.id)`)
and by the strict-order statements; stored contacts always carry an id. -/
def idKey (c : Contact) : String := c.id.getD ("")

/-- Comparator relation of the `GET /contacts` sort:
`a.id.localeCompare(b.id)`, via the collation model. -/
def contactLe (a b : Contact) : Prop := localeLe (idKey a) (idKey b) = true

instance : DecidableRel contactLe :=
  fun a b => inferInstanceAs (Decidable (localeLe (idKey a) (idKey b) = true))

/-- Code-unit comparison of contacts by id, the order the collation
comparator coincides with on single-case alphanumeric ids. -/
def contactLeCU (a b : Contact) : Prop := strLe (idKey a) (idKey b) = true

instance : DecidableRel contactLeCU :=
  fun a b => inferInstanceAs (Decidable (strLe (idKey a) (idKey b) = true))

/-- The key comparison of the sorted key array. -/
def strLeR (a b : String) : Prop := strLe a b = true

instance : DecidableRel strLeR :=
  fun a b => inferInstanceAs (Decidable (strLe a b = true))

/-- The `GET /contacts` handler:
`Array.from(contacts.values()).sort((a, b) => a.id.localeCompare(b.id))`.
The comparison sort of the runtime is modelled as insertion sort by the
collation comparator; on the stores the handler sees, ids are pairwise
collation-distinct, so every comparison sort agrees. -/
def listContacts (contacts : Store) : List Contact :=
  List.insertionSort contactLe (contacts.map Prod.snd)

/-- Listing as an operation on the state: the handler only reads. -/
def listOp (contacts : Store) : List Contact × Store :=
  (listContacts contacts, contacts)

/-- The key array `Array.from(contacts.keys()).sort()` rebuilt by the
`GET /contacts/:id` handler. -/
def sortedIds (contacts : Store) : List String :=
  List.insertionSort strLeR (contacts.map Prod.fst)

/-- Midpoint computation `Math.floor(left + (right - left) / 2)` of the
binary search, on `right + 1`. -/
def midOf (left rp1 : Nat) : Nat := left + (rp1 - 1 - left) / 2

/-- The while loop of the binary search in `GET /contacts/:id`,
searching `xs` on the index window `[left, rp1)`.  The loop variant
`rp1 - left` strictly decreases on every iteration, so running it on a
fuel larger than the initial variant reproduces the JavaScript loop
exactly; the fuel-exhausted and out-of-range branches are unreachable
from `bsearchContains`. -/
def bsearchAux (xs : List String) (t : String) : Nat → Nat → Nat → Bool
  | 0, _, _ => false
  | fuel + 1, left, rp1 =>
    if left < rp1 then
      match xs.get? (midOf left rp1) with
      | none => false
      | some m =>
        if m = t then true
        else if strLt m t then bsearchAux xs t fuel (midOf left rp1 + 1) rp1
        else bsearchAux xs t fuel left (midOf left rp1)
    else false

/-- Whole-array binary search, `left = 0`, `right = length - 1`. -/
def bsearchContains (xs : List String) (t : String) : Bool :=
  bsearchAux xs t (xs.length + 1) 0 xs.length

/-- The `GET /contacts/:id` handler: binary search over the freshly
sorted key array, then `contacts.get(id)` on a hit.  A hit implies the
key is present, so the inner `none` branch is unreachable. -/
def getContact (contacts : Store) (i : String) : GetRes :=
  if bsearchContains (sortedIds contacts) i then
    match mapGet contacts i with
    | some c => GetRes.found c
    | none => GetRes.notFound
  else GetRes.notFound

/-!  Concrete records used by counterexamples and witnesses. -/

/-- A fully valid stored contact. -/
def demoC0 : Contact :=
  { id := some ("A1"), firstName := some ("Jo"), lastName := some ("Li")
    phone := some ("555-123-4567"), address := none, email := some ("jo@x.com") }

/-- A store holding just `demoC0` under its id. -/
def demoStore : Store := [(("A1"), demoC0)]

/-- An update body supplying only an invalid phone. -/
def badPhoneBody : Contact :=
  { id := none, firstName := none, lastName := none
    phone := some ("bad"), address := none, email := none }

/-- The record `demoC0` after merging `badPhoneBody`. -/
def demoMutated : Contact :=
  { id := some ("A1"), firstName := some ("Jo"), lastName := some ("Li")
    phone := some ("bad"), address := none, email := some ("jo@x.com") }

/-- A valid candidate whose id carries a trailing space. -/
def cSpace : Contact :=
  { id := some ("A1 "), firstName := some ("Ann"), lastName := some ("Wu")
    phone := some ("555-123-4567"), address := none, email := some ("an@x.com") }

/-- A second candidate with the same raw id `"A1 "`. -/
def cSpace2 : Contact :=
  { id := some ("A1 "), firstName := some ("Bea"), lastName := some ("Xu")
    phone := some ("555-123-4567"), address := none, email := some ("be@x.com") }

/-- A valid candidate whose id is the clean `"A1"`. -/
def cClean : Contact :=
  { id := some ("A1"), firstName := some ("Cal"), lastName := some ("Yi")
    phone := some ("555-123-4567"), address := none, email := some ("ca@x.com") }

/-- The store reached by adding `cSpace` to the empty store. -/
def sSpace : Store := (addContact [] cSpace).2

/-- A valid contact with id `"B2"`. -/
def cB2 : Contact :=
  { id := some ("B2"), firstName := some ("Dee"), lastName := some ("Zs")
    phone := some ("555-123-4567"), address := none, email := some ("de@x.com") }

/-- A well-formed two-record store, inserted out of id order. -/
def demoStore2 : Store := [(("B2"), cB2), (("A1"), cClean)]

/-- A valid candidate whose raw id has 11 characters but trims to 10. -/
def cLong : Contact :=
  { id := some ("A123456789 "), firstName := some ("Eve"), lastName := some ("Vu")
    phone := some ("555-123-4567"), address := none, email := some ("ev@x.com") }

/-- An update body supplying one new name, an explicitly empty address
and nothing else. -/
def bodyKeep : Contact :=
  { id := none, firstName := none, lastName := some ("Lee")
    phone := none, address := some (""), email := none }

/-- The store reached from `demoStore` by adding `cB2`. -/
def sC5 : Store := (addContact demoStore cB2).2

/-- A valid contact with the lowercase id `"a"`. -/
def cLowerA : Contact :=
  { id := some ("a"), firstName := some ("Fay"), lastName := some ("Orr")
    phone := some ("555-123-4567"), address := none, email := some ("fa@x.com") }

/-- A valid contact with the uppercase id `"B"`. -/
def cUpperB : Contact :=
  { id := some ("B"), firstName := some ("Gus"), lastName := some ("Pim")
    phone := some ("555-123-4567"), address := none, email := some ("gu@x.com") }

/-- A reachable well-formed store whose ids mix letter case. -/
def sMixed : Store := [(("a"), cLowerA), (("B"), cUpperB)]

/-!  Bridge between the executable string comparison and the
`LinearOrder` on `String`. -/

/-- Character comparison by code point agrees with the order on
`Char`. -/
theorem charLt_iff (a b : Char) : a < b ↔ a.toNat < b.toNat := by
  rw [Char.lt_iff_val_lt_val, UInt32.lt_def]
  rfl

/-- The list comparison computes the lexicographic order. -/
theorem strLtList_iff (as : List Char) : ∀ bs,
    strLtList as bs = true ↔ List.Lex (· < ·) as bs := by
  induction as with
  | nil =>
    intro bs
    cases bs with
    | nil =>
      constructor
      · intro h; cases h
      · intro h; cases h
    | cons b bs =>
      constructor
      · intro _; exact List.Lex.nil
      · intro _; rfl
  | cons a as ih =>
    intro bs
    cases bs with
    | nil =>
      constructor
      · intro h; cases h
      · intro h; cases h
    | cons b bs =>
      by_cases hab : a = b
      · subst hab
        have : strLtList (a :: as) (a :: bs) = strLtList as bs := by
          simp [strLtList]
        rw [this, ih bs]
        constructor
        · intro h; exact List.Lex.cons h
        · intro h
          cases h with
          | cons h => exact h
          | rel h => exact absurd h (lt_irrefl a)
      · have : strLtList (a :: as) (b :: bs) = decide (a.toNat < b.toNat) := by
          simp [strLtList, hab]
        rw [this]
        constructor
        · intro h
          exact List.Lex.rel ((charLt_iff a b).mpr (by simpa using h))
        · intro h
          cases h with
          | cons h => exact absurd rfl hab
          | rel h => simpa using (charLt_iff a b).mp h

/-- The executable `strLt` computes the order on `String`. -/
theorem strLt_iff (a b : String) : strLt a b = true ↔ a < b := by
  rw [String.lt_iff_toList_lt]
  show strLt a b = true ↔ List.Lex (· < ·) a.data b.data
  exact strLtList_iff a.data b.data

/-- The executable `strLe` computes the order on `String`. -/
theorem strLe_iff (a b : String) : strLe a b = true ↔ a ≤ b := by
  have hdef : strLe a b = !(strLt b a) := rfl
  rcases hx : strLt b a with _ | _
  · rw [hdef, hx]
    simp only [Bool.not_false]
    constructor
    · intro _
      refine le_of_not_lt (fun hlt => ?_)
      have hc := (strLt_iff b a).mpr hlt
      rw [hx] at hc
      cases hc
    · intro _; trivial
  · rw [hdef, hx]
    simp only [Bool.not_true]
    constructor
    · intro hf; cases hf
    · intro hle
      exact absurd ((strLt_iff b a).mp hx) (not_lt_of_le hle)

theorem strLeR_iff (a b : String) : strLeR a b ↔ a ≤ b := by
  rw [strLeR, strLe_iff]

instance : IsTotal String strLeR :=
  ⟨fun a b => by rw [strLeR_iff, strLeR_iff]; exact le_total a b⟩

instance : IsTrans String strLeR :=
  ⟨fun a b c h1 h2 => by
    rw [strLeR_iff] at *
    exact le_trans h1 h2⟩

theorem contactLeCU_iff (a b : Contact) : contactLeCU a b ↔ idKey a ≤ idKey b := by
  rw [contactLeCU, strLe_iff]

instance : IsTotal Contact contactLeCU :=
  ⟨fun a b => by rw [contactLeCU_iff, contactLeCU_iff]; exact le_total _ _⟩

instance : IsTrans Contact contactLeCU :=
  ⟨fun a b c h1 h2 => by
    rw [contactLeCU_iff] at *
    exact le_trans h1 h2⟩

/-!  Character-class and trim facts. -/

/-- A digit is not removed by the phone cleaning step. -/
theorem digit_not_strip (c : Char) (h : isDigitC c = true) :
    stripPhoneChar c = false := by
  simp only [isDigitC, decide_eq_true_eq] at h
  simp only [stripPhoneChar, jsWhitespace, Bool.or_eq_false_iff,
    decide_eq_false_iff_not]
  omega

/-- A digit is not whitespace. -/
theorem digit_not_ws (c : Char) (h : isDigitC c = true) :
    jsWhitespace c = false := by
  simp only [isDigitC, decide_eq_true_eq] at h
  simp only [jsWhitespace, decide_eq_false_iff_not]
  omega

/-- Counting digits after the cleaning step counts the digits of the
original string: cleaning removes no digit. -/
theorem filter_digits_strip (l : List Char) :
    (l.filter (fun c => !(stripPhoneChar c))).filter isDigitC =
      l.filter isDigitC := by
  induction l with
  | nil => rfl
  | cons c l ih =>
    by_cases hd : isDigitC c = true
    · have hs := digit_not_strip c hd
      simp [List.filter_cons, hs, hd, ih]
    · have hd' : isDigitC c = false := by
        cases h : isDigitC c
        · rfl
        · exact absurd h hd
      by_cases hs : stripPhoneChar c = true
      · simp [List.filter_cons, hs, hd', ih]
      · have hs' : stripPhoneChar c = false := by
          cases h : stripPhoneChar c
          · rfl
          · exact absurd h hs
        simp [List.filter_cons, hs', hd', ih]

/-- A member that fails the predicate survives `dropWhile`. -/
theorem mem_dropWhile_of_mem {p : Char → Bool} {c : Char} :
    ∀ {l : List Char}, c ∈ l → p c = false → c ∈ l.dropWhile p := by
  intro l
  induction l with
  | nil => intro h _; cases h
  | cons a l ih =>
    intro hmem hc
    by_cases ha : p a = true
    · rw [List.dropWhile_cons_of_pos ha]
      rcases List.mem_cons.mp hmem with rfl | h
      · rw [hc] at ha; cases ha
      · exact ih h hc
    · have ha' : p a = false := by
        cases h : p a
        · rfl
        · exact absurd h ha
      rw [List.dropWhile_cons_of_neg (by simp [ha'])]
      exact hmem

/-- A list holding a non-whitespace character does not trim to the
empty list. -/
theorem jsTrimList_ne_nil {c : Char} {l : List Char} (hmem : c ∈ l)
    (hws : jsWhitespace c = false) : jsTrimList l ≠ [] := by
  intro hnil
  have h1 : c ∈ l.dropWhile jsWhitespace := mem_dropWhile_of_mem hmem hws
  have h2 : c ∈ (l.dropWhile jsWhitespace).reverse := List.mem_reverse.mpr h1
  have h3 : c ∈ ((l.dropWhile jsWhitespace).reverse.dropWhile jsWhitespace) :=
    mem_dropWhile_of_mem h2 hws
  have h4 : c ∈ jsTrimList l := by
    rw [jsTrimList]
    exact List.mem_reverse.mpr h3
  rw [hnil] at h4
  cases h4

/-- String equality with the empty string is emptiness of the data. -/
theorem string_eq_empty_iff (s : String) : s = "" ↔ s.data = [] := by
  constructor
  · intro h; rw [h]
  · intro h
    cases s with
    | mk d =>
      cases h
      rfl

/-!  Facts about the Map operations. -/

/-- A key is retrievable exactly when it occurs among the keys. -/
theorem mapGet_isSome_iff (s : Store) (i : String) :
    (mapGet s i).isSome = true ↔ i ∈ s.map Prod.fst := by
  induction s with
  | nil => simp [mapGet]
  | cons p s ih =>
    rcases p with ⟨k, v⟩
    by_cases h : k = i
    · subst h
      simp [mapGet]
    · simp [mapGet, h, ih, Ne.symm h]

/-- Setting a key makes it retrieve the new value. -/
theorem mapGet_mapSet_self (s : Store) (k : String) (v : Contact) :
    mapGet (mapSet s k v) k = some v := by
  induction s with
  | nil => simp [mapSet, mapGet]
  | cons p s ih =>
    rcases p with ⟨k0, v0⟩
    by_cases h : k0 = k
    · subst h
      simp [mapSet, mapGet]
    · simp [mapSet, mapGet, h, ih]

/-- Setting one key leaves every other key unchanged. -/
theorem mapGet_mapSet_ne (s : Store) (k i : String) (v : Contact)
    (h : i ≠ k) : mapGet (mapSet s k v) i = mapGet s i := by
  induction s with
  | nil => simp [mapSet, mapGet, Ne.symm h]
  | cons p s ih =>
    rcases p with ⟨k0, v0⟩
    by_cases h0 : k0 = k
    · subst h0
      simp [mapSet, mapGet, Ne.symm h]
    · by_cases h1 : k0 = i
      · subst h1
        simp [mapSet, mapGet, h0]
      · simp [mapSet, mapGet, h0, h1, ih]

/-- Setting a present key leaves the key sequence unchanged. -/
theorem keys_mapSet_of_mem (s : Store) (k : String) (v : Contact)
    (h : k ∈ s.map Prod.fst) :
    (mapSet s k v).map Prod.fst = s.map Prod.fst := by
  induction s with
  | nil => cases h
  | cons p s ih =>
    rcases p with ⟨k0, v0⟩
    by_cases h0 : k0 = k
    · subst h0
      simp [mapSet]
    · rcases List.mem_cons.mp h with h1 | h1

      · exact absurd h1.symm h0
      · simp [mapSet, h0, ih h1]

/-- Setting an absent key appends it. -/
theorem keys_mapSet_of_not_mem (s : Store) (k : String) (v : Contact)
    (h : k ∉ s.map Prod.fst) :
    (mapSet s k v).map Prod.fst = s.map Prod.fst ++ [k] := by
  induction s with
  | nil => rfl
  | cons p s ih =>
    rcases p with ⟨k0, v0⟩
    have hk0 : k0 ≠ k := by
      intro h0
      exact h (by simp [h0])
    have hs : k ∉ s.map Prod.fst := by
      intro h0
      exact h (by simp [h0])
    simp [mapSet, hk0, ih hs]

/-- Membership among the keys after a set. -/
theorem mem_keys_mapSet (s : Store) (k a : String) (v : Contact) :
    a ∈ (mapSet s k v).map Prod.fst ↔ a = k ∨ a ∈ s.map Prod.fst := by
  by_cases h : k ∈ s.map Prod.fst
  · rw [keys_mapSet_of_mem s k v h]
    constructor
    · intro h1; exact Or.inr h1
    · intro h1
      rcases h1 with rfl | h1
      · exact h
      · exact h1
  · rw [keys_mapSet_of_not_mem s k v h]
    simp [or_comm]

/-- Setting preserves distinctness of the keys. -/
theorem nodup_keys_mapSet (s : Store) (k : String) (v : Contact)
    (h : (s.map Prod.fst).Nodup) : ((mapSet s k v).map Prod.fst).Nodup := by
  by_cases hk : k ∈ s.map Prod.fst
  · rw [keys_mapSet_of_mem s k v hk]
    exact h
  · rw [keys_mapSet_of_not_mem s k v hk]
    rw [List.nodup_append]
    refine ⟨h, List.nodup_singleton k, ?_⟩
    intro a ha hb
    rcases List.mem_singleton.mp hb with rfl
    exact hk ha

/-!  Correctness of the binary search of `GET /contacts/:id` over a
strictly sorted key array. -/

/-- The loop invariant proof: on a strictly sorted array, with every
index below `left` holding a key below the target and every index at or
beyond `rp1` holding a key above it, the loop answers exactly
membership, for any sufficient fuel. -/
theorem bsearchAux_iff (xs : List String) (t : String)
    (hs : xs.Pairwise (· < ·)) :
    ∀ (fuel left rp1 : Nat), rp1 - left < fuel → rp1 ≤ xs.length →
      (∀ i x, i < left → xs.get? i = some x → x < t) →
      (∀ i x, rp1 ≤ i → xs.get? i = some x → t < x) →
      (bsearchAux xs t fuel left rp1 = true ↔ t ∈ xs) := by
  intro fuel
  induction fuel with
  | zero =>
    intro left rp1 hf
    omega
  | succ fuel ih =>
    intro left rp1 hf hlen hl hr
    by_cases hlr : left < rp1
    · have hmidge : left ≤ midOf left rp1 := by rw [midOf]; omega
      have hmidlt : midOf left rp1 < rp1 := by rw [midOf]; omega
      have hmlen : midOf left rp1 < xs.length := lt_of_lt_of_le hmidlt hlen
      have hget : xs.get? (midOf left rp1) =
          some (xs.get ⟨midOf left rp1, hmlen⟩) := List.get?_eq_get hmlen
      set m := xs.get ⟨midOf left rp1, hmlen⟩ with hm
      have hstep : bsearchAux xs t (fuel + 1) left rp1 =
          (if m = t then true
           else if strLt m t then bsearchAux xs t fuel (midOf left rp1 + 1) rp1
           else bsearchAux xs t fuel left (midOf left rp1)) := by
        simp only [bsearchAux, if_pos hlr, hget]
      rw [hstep]
      by_cases hmt : m = t
      · rw [if_pos hmt]
        exact iff_of_true rfl (hmt ▸ List.get?_mem hget)
      · rw [if_neg hmt]
        by_cases hlt : strLt m t = true
        · rw [if_pos hlt]
          have hmlt : m < t := (strLt_iff m t).mp hlt
          refine ih (midOf left rp1 + 1) rp1 (by omega) hlen ?_ hr
          intro i x hi hx
          by_cases hil : i < left
          · exact hl i x hil hx
          · have hilen : i < xs.length := by omega
            have hxg : x = xs.get ⟨i, hilen⟩ := by
              have := List.get?_eq_get hilen
              rw [this] at hx
              exact (Option.some_injective _ hx).symm
            by_cases him : i = midOf left rp1
            · rw [hxg]
              have : xs.get ⟨i, hilen⟩ = m := by
                rw [hm]
                congr 1
                exact Fin.ext him
              rw [this]
              exact hmlt
            · have hilt : i < midOf left rp1 := by omega
              have hrel : xs.get ⟨i, hilen⟩ < xs.get ⟨midOf left rp1, hmlen⟩ :=
                List.pairwise_iff_get.mp hs ⟨i, hilen⟩ ⟨midOf left rp1, hmlen⟩ hilt
              rw [hxg]
              exact lt_trans hrel hmlt
        · rw [if_neg hlt]
          have htm : t < m := by
            have hle : t ≤ m := by
              refine le_of_not_lt (fun hc => ?_)
              exact hlt ((strLt_iff m t).mpr hc)
            exact lt_of_le_of_ne hle (fun he => hmt he.symm)
          refine ih left (midOf left rp1) (by omega) (le_of_lt hmlen) hl ?_
          intro i x hi hx
          by_cases hilen : i < xs.length
          · have hxg : x = xs.get ⟨i, hilen⟩ := by
              have := List.get?_eq_get hilen
              rw [this] at hx
              exact (Option.some_injective _ hx).symm
            by_cases him : i = midOf left rp1
            · rw [hxg]
              have : xs.get ⟨i, hilen⟩ = m := by
                rw [hm]
                congr 1
                exact Fin.ext him
              rw [this]
              exact htm
            · have hgt : midOf left rp1 < i := by omega
              have hrel : xs.get ⟨midOf left rp1, hmlen⟩ < xs.get ⟨i, hilen⟩ :=
                List.pairwise_iff_get.mp hs ⟨midOf left rp1, hmlen⟩ ⟨i, hilen⟩ hgt
              rw [hxg]
              exact lt_trans htm hrel
          · have : xs.get? i = none := List.get?_eq_none.mpr (by omega)
            rw [this] at hx
            cases hx
    · have hstep : bsearchAux xs t (fuel + 1) left rp1 = false := by
        simp only [bsearchAux, if_neg hlr]
      rw [hstep]
      constructor
      · intro h; cases h
      · intro hmem
        exfalso
        rcases List.mem_iff_get.mp hmem with ⟨⟨j, hj⟩, hjt⟩
        have hjget : xs.get? j = some t := by
          rw [List.get?_eq_get hj, hjt]
        by_cases hjl : j < left
        · exact absurd (hl j t hjl hjget) (lt_irrefl t)
        · have : rp1 ≤ j := by omega
          exact absurd (hr j t this hjget) (lt_irrefl t)

/-- On a strictly sorted key array the binary search of the handler
finds a key exactly when it is present. -/
theorem bsearchContains_iff (xs : List String) (t : String)
    (hs : xs.Pairwise (· < ·)) : bsearchContains xs t = true ↔ t ∈ xs := by
  refine bsearchAux_iff xs t hs (xs.length + 1) 0 xs.length (by omega)
    (le_refl _) ?_ ?_
  · intro i x hi
    omega
  · intro i x hge hsome
    have : xs.get? i = none := List.get?_eq_none.mpr hge
    rw [this] at hsome
    cases hsome

/-!  Sortedness of the rebuilt key array and of the listing. -/

/-- The sorted key array holds exactly the keys. -/
theorem mem_sortedIds (s : Store) (a : String) :
    a ∈ sortedIds s ↔ a ∈ s.map Prod.fst :=
  (List.perm_insertionSort strLeR (s.map Prod.fst)).mem_iff

/-- With distinct keys the rebuilt key array is strictly sorted. -/
theorem sortedIds_pairwise (s : Store) (h : (s.map Prod.fst).Nodup) :
    (sortedIds s).Pairwise (fun a b : String => a < b) := by
  have hsort : (sortedIds s).Pairwise strLeR :=
    List.sorted_insertionSort strLeR (s.map Prod.fst)
  have hnd : (sortedIds s).Nodup :=
    (List.perm_insertionSort strLeR (s.map Prod.fst)).nodup_iff.mpr h
  have hboth := hsort.and hnd
  exact hboth.imp (fun hab => lt_of_le_of_ne ((strLeR_iff _ _).mp hab.1) hab.2)

/-- Well-formedness of the store as maintained by the handlers: keys
are distinct, and every record is stored under its own id. -/
def WFStore (s : Store) : Prop :=
  (s.map Prod.fst).Nodup ∧ ∀ p ∈ s, Contact.id p.2 = some p.1

instance : DecidablePred WFStore := fun _s =>
  inferInstanceAs (Decidable (_ ∧ _))

/-- On a well-formed store the ids of the stored records are exactly
the keys. -/
theorem values_idKey_eq_keys (s : Store) (h : WFStore s) :
    (s.map Prod.snd).map idKey = s.map Prod.fst := by
  rw [List.map_map]
  refine List.map_congr_left (fun p hp => ?_)
  have := h.2 p hp
  simp [idKey, Function.comp, this]

/-- The listing returns exactly the stored records. -/
theorem listContacts_perm (s : Store) :
    (listContacts s).Perm (s.map Prod.snd) :=
  List.perm_insertionSort contactLe (s.map Prod.snd)

/-- On a well-formed store, the values sorted by code-unit id order
are strictly ascending in id. -/
theorem cuSort_pairwise (s : Store) (h : WFStore s) :
    ((List.insertionSort contactLeCU (s.map Prod.snd)).map idKey).Pairwise
      (fun a b : String => a < b) := by
  have hsort : (List.insertionSort contactLeCU (s.map Prod.snd)).Pairwise contactLeCU :=
    List.sorted_insertionSort contactLeCU (s.map Prod.snd)
  have hperm : ((List.insertionSort contactLeCU (s.map Prod.snd)).map idKey).Perm
      (s.map Prod.fst) := by
    have h1 : ((List.insertionSort contactLeCU (s.map Prod.snd)).map idKey).Perm
        ((s.map Prod.snd).map idKey) :=
      (List.perm_insertionSort contactLeCU (s.map Prod.snd)).map idKey
    rw [values_idKey_eq_keys s h] at h1
    exact h1
  have hnd : ((List.insertionSort contactLeCU (s.map Prod.snd)).map idKey).Nodup :=
    hperm.nodup_iff.mpr h.1
  have hndl : (List.insertionSort contactLeCU (s.map Prod.snd)).Pairwise
      (fun a b => idKey a ≠ idKey b) :=
    List.pairwise_map.mp hnd
  have hboth := hsort.and hndl
  refine List.pairwise_map.mpr ?_
  exact hboth.imp (fun hab =>
    lt_of_le_of_ne ((contactLeCU_iff _ _).mp hab.1) hab.2)

/-!  Agreement of the collation comparator with code-unit order on
single-case ASCII alphanumeric strings, and congruence of the sort in
the comparator. -/

/-- Characters agree when their code points do. -/
theorem char_eq_of_toNat_eq {c1 c2 : Char} (h : c1.toNat = c2.toNat) :
    c1 = c2 :=
  Char.ext (UInt32.ext h)

/-- Weight-sequence comparison is irreflexive. -/
theorem natListLt_irrefl : ∀ l : List Nat, natListLt l l = false
  | [] => rfl
  | _ :: t => by simp [natListLt, natListLt_irrefl t]

/-- Code-unit comparison is irreflexive. -/
theorem strLtList_irrefl : ∀ l : List Char, strLtList l l = false
  | [] => rfl
  | _ :: t => by simp [strLtList, strLtList_irrefl t]

/-- On the digit-and-lowercase set the primary weight is strictly
monotone in the code point. -/
theorem lower_primary_mono (c1 c2 : Char) (h1 : isLowerAlnumC c1 = true)
    (h2 : isLowerAlnumC c2 = true) :
    (collPrimary c1 < collPrimary c2 ↔ c1.toNat < c2.toNat) := by
  simp only [isLowerAlnumC, decide_eq_true_eq] at h1 h2
  simp only [collPrimary]
  split_ifs <;> omega

/-- On the digit-and-uppercase set the primary weight is strictly
monotone in the code point. -/
theorem upper_primary_mono (c1 c2 : Char) (h1 : isUpperAlnumC c1 = true)
    (h2 : isUpperAlnumC c2 = true) :
    (collPrimary c1 < collPrimary c2 ↔ c1.toNat < c2.toNat) := by
  simp only [isUpperAlnumC, decide_eq_true_eq] at h1 h2
  simp only [collPrimary]
  split_ifs <;> omega

/-- A strictly monotone primary weight is injective on its set. -/
theorem primary_inj_of_mono (p : Char → Bool)
    (hmono : ∀ c1 c2, p c1 = true → p c2 = true →
      (collPrimary c1 < collPrimary c2 ↔ c1.toNat < c2.toNat))
    (c1 c2 : Char) (h1 : p c1 = true) (h2 : p c2 = true)
    (he : collPrimary c1 = collPrimary c2) : c1 = c2 := by
  apply char_eq_of_toNat_eq
  have m1 := hmono c1 c2 h1 h2
  have m2 := hmono c2 c1 h2 h1
  have n1 : ¬ c1.toNat < c2.toNat := fun hl =>
    absurd (he ▸ m1.mpr hl) (lt_irrefl _)
  have n2 : ¬ c2.toNat < c1.toNat := fun hl =>
    absurd (he ▸ m2.mpr hl) (lt_irrefl _)
  omega

/-- Over a set with monotone injective primary weights the primary
lexicographic comparison is the code-unit comparison. -/
theorem natListLt_map_agree (p : Char → Bool)
    (hmono : ∀ c1 c2, p c1 = true → p c2 = true →
      (collPrimary c1 < collPrimary c2 ↔ c1.toNat < c2.toNat)) :
    ∀ (xs ys : List Char), xs.all p = true → ys.all p = true →
      natListLt (xs.map collPrimary) (ys.map collPrimary) = strLtList xs ys := by
  intro xs
  induction xs with
  | nil =>
    intro ys _ _
    cases ys <;> rfl
  | cons a as ih =>
    intro ys hxs hys
    cases ys with
    | nil => rfl
    | cons b bs =>
      have hpa : p a = true := by
        simp only [List.all_cons, Bool.and_eq_true] at hxs
        exact hxs.1
      have has : as.all p = true := by
        simp only [List.all_cons, Bool.and_eq_true] at hxs
        exact hxs.2
      have hpb : p b = true := by
        simp only [List.all_cons, Bool.and_eq_true] at hys
        exact hys.1
      have hbs : bs.all p = true := by
        simp only [List.all_cons, Bool.and_eq_true] at hys
        exact hys.2
      simp only [List.map_cons, natListLt, strLtList]
      by_cases hab : a = b
      · subst hab
        rw [if_pos rfl, if_pos rfl]
        exact ih bs has hbs
      · have hne : collPrimary a ≠ collPrimary b := fun he =>
          hab (primary_inj_of_mono p hmono a b hpa hpb he)
        rw [if_neg hne, if_neg hab]
        simp only [decide_eq_decide]
        exact hmono a b hpa hpb

/-- Over such a set, equal primary sequences force equal strings. -/
theorem primary_map_inj (p : Char → Bool)
    (hmono : ∀ c1 c2, p c1 = true → p c2 = true →
      (collPrimary c1 < collPrimary c2 ↔ c1.toNat < c2.toNat)) :
    ∀ (xs ys : List Char), xs.all p = true → ys.all p = true →
      xs.map collPrimary = ys.map collPrimary → xs = ys := by
  intro xs
  induction xs with
  | nil =>
    intro ys _ _ h
    cases ys with
    | nil => rfl
    | cons b bs => cases h
  | cons a as ih =>
    intro ys hxs hys h
    cases ys with
    | nil => cases h
    | cons b bs =>
      simp only [List.all_cons, Bool.and_eq_true] at hxs hys
      simp only [List.map_cons, List.cons.injEq] at h
      have hab : a = b :=
        primary_inj_of_mono p hmono a b hxs.1 hys.1 h.1
      rw [hab, ih bs hxs.2 hys.2 h.2]

/-- On single-case alphanumeric strings the collation comparison is
exactly the code-unit comparison. -/
theorem localeLt_eq_strLt (p : Char → Bool)
    (hmono : ∀ c1 c2, p c1 = true → p c2 = true →
      (collPrimary c1 < collPrimary c2 ↔ c1.toNat < c2.toNat))
    (x y : String) (hx : x.data.all p = true) (hy : y.data.all p = true) :
    localeLt x y = strLt x y := by
  have hagree := natListLt_map_agree p hmono x.data y.data hx hy
  rw [localeLt]
  by_cases h1 : natListLt (x.data.map collPrimary) (y.data.map collPrimary) = true
  · rw [if_pos h1]
    rw [hagree] at h1
    exact h1.symm
  · rw [if_neg h1]
    by_cases h2 : x.data.map collPrimary = y.data.map collPrimary
    · have hd : x.data = y.data := primary_map_inj p hmono x.data y.data hx hy h2
      have hxy : x = y := by
        cases x; cases y; cases hd; rfl
      subst hxy
      rw [if_pos rfl, if_pos rfl, natListLt_irrefl]
      rfl
    · rw [if_neg h2]
      have : strLtList x.data y.data = false := by
        rw [← hagree]
        cases hv : natListLt (x.data.map collPrimary) (y.data.map collPrimary)
        · rfl
        · exact absurd hv h1
      rw [strLt, this]

/-- The comparator equality lifted to the non-strict side. -/
theorem localeLe_eq_strLe (p : Char → Bool)
    (hmono : ∀ c1 c2, p c1 = true → p c2 = true →
      (collPrimary c1 < collPrimary c2 ↔ c1.toNat < c2.toNat))
    (x y : String) (hx : x.data.all p = true) (hy : y.data.all p = true) :
    localeLe x y = strLe x y := by
  rw [localeLe, strLe, localeLt_eq_strLt p hmono y x hy hx]

/-- Ordered insertion only compares the inserted element with list
elements, so comparators that agree on them insert identically. -/
theorem orderedInsert_congr {α : Type} (r1 r2 : α → α → Prop)
    [DecidableRel r1] [DecidableRel r2] (a : α) :
    ∀ (l : List α), (∀ x y, x ∈ a :: l → y ∈ a :: l → (r1 x y ↔ r2 x y)) →
      List.orderedInsert r1 a l = List.orderedInsert r2 a l := by
  intro l
  induction l with
  | nil => intro _; rfl
  | cons b t ih =>
    intro h
    have hsub : ∀ z, z ∈ a :: t → z ∈ a :: b :: t := by
      intro z hz
      rcases List.mem_cons.mp hz with rfl | hz0
      · exact List.mem_cons_self _ _
      · exact List.mem_cons_of_mem _ (List.mem_cons_of_mem _ hz0)
    by_cases hr : r1 a b
    · rw [List.orderedInsert, List.orderedInsert, if_pos hr,
        if_pos ((h a b (by simp) (by simp)).mp hr)]
    · rw [List.orderedInsert, List.orderedInsert, if_neg hr,
        if_neg (fun h2 => hr ((h a b (by simp) (by simp)).mpr h2))]
      rw [ih (fun x y hx hy => h x y (hsub x hx) (hsub y hy))]

/-- Insertion sort only compares list elements, so comparators that
agree on them sort identically. -/
theorem insertionSort_congr {α : Type} (r1 r2 : α → α → Prop)
    [DecidableRel r1] [DecidableRel r2] :
    ∀ (l : List α), (∀ x y, x ∈ l → y ∈ l → (r1 x y ↔ r2 x y)) →
      List.insertionSort r1 l = List.insertionSort r2 l := by
  intro l
  induction l with
  | nil => intro _; rfl
  | cons a t ih =>
    intro h
    have hrec : List.insertionSort r1 t = List.insertionSort r2 t :=
      ih (fun x y hx hy =>
        h x y (List.mem_cons_of_mem _ hx) (List.mem_cons_of_mem _ hy))
    rw [List.insertionSort, List.insertionSort, hrec]
    apply orderedInsert_congr
    intro x y hx hy
    have hsub : ∀ z, z ∈ a :: List.insertionSort r2 t → z ∈ a :: t := by
      intro z hz
      rcases List.mem_cons.mp hz with rfl | hz0
      · exact List.mem_cons_self _ _
      · exact List.mem_cons_of_mem _ ((List.mem_insertionSort r2).mp hz0)
    exact h x y (hsub x hx) (hsub y hy)

/-!  Inversion of the handlers. -/

/-- A successful add means validation passed and the new record was
set under its raw id. -/
theorem addContact_created_inv (s : Store) (c : Contact) (s' : Store)
    (h : addContact s c = (AddRes.created, s')) :
    reportIsEmpty (validateContact s c true) = true ∧
      s' = mapSet s (c.id.getD ("")) c := by
  simp only [addContact] at h
  by_cases hr : reportIsEmpty (validateContact s c true) = true
  · rw [if_pos hr] at h
    exact ⟨hr, (congrArg Prod.snd h).symm⟩
  · rw [if_neg hr] at h
    exact absurd (congrArg Prod.fst h) (by simp)

/-- An update on a present key always ends with the merged record in
the store, whether or not validation succeeded. -/
theorem updateContact_found (s : Store) (i : String) (body old : Contact)
    (h : mapGet s i = some old) :
    (updateContact s i body).2 = mapSet s i (mergeContact old body) := by
  simp only [updateContact, h]
  by_cases hr : reportIsEmpty (validateContact
      (mapSet s i (mergeContact old body)) (mergeContact old body) false) = true
  · rw [if_pos hr]
  · rw [if_neg hr]


/-!  The claims. -/

/-- C1: the claim states that an update of an existing id whose merged
record fails validation returns ValidationFailed and leaves the prior
stored record unchanged.  The Map-backed handler mutates the stored
object before validating, so on the concrete failing input the handler
answers ValidationFailed yet the stored record has already been
overwritten with the invalid merge: the second half of the claim is
false of the code. -/
theorem C1_update_mutates_before_validation :
    mapGet demoStore ("A1") = some demoC0 ∧
    reportIsEmpty (validateContact demoStore demoC0 false) = true ∧
    isVFail (updateContact demoStore ("A1") badPhoneBody).1 = true ∧
    mapGet (updateContact demoStore ("A1") badPhoneBody).2 ("A1") =
      some demoMutated ∧
    demoMutated ≠ demoC0 := by decide

/-- C3: the claim states that every operation preserves the invariant
that every stored record passes the five field rules.  Starting from a
store whose single record validates cleanly, the update with an
invalid phone answers ValidationFailed but persists the merged record,
which fails validation: the invariant is not preserved by update. -/
theorem C3_invalid_record_persists :
    (∀ p ∈ demoStore, reportIsEmpty (validateContact demoStore p.2 false) = true) ∧
    isVFail (updateContact demoStore ("A1") badPhoneBody).1 = true ∧
    mapGet (updateContact demoStore ("A1") badPhoneBody).2 ("A1") =
      some demoMutated ∧
    reportIsEmpty (validateContact
      (updateContact demoStore ("A1") badPhoneBody).2 demoMutated false) = false := by
  decide

/-- C2 counterexample: the claim states that the listing is strictly
ascending in lexicographic id order for every store.  On the reachable
well-formed store with ids `"a"` and `"B"` the collation comparator of
the handler lists `"a"` before `"B"`, which is not lexicographically
ascending (code unit 97 is not below 66). -/
theorem C2_counterexample :
    WFStore sMixed ∧
    listContacts sMixed = [cLowerA, cUpperB] ∧
    ¬ (((listContacts sMixed).map idKey).Pairwise (fun a b : String => a < b)) := by
  refine ⟨by decide, by decide, ?_⟩
  intro hpw
  have hmap : (listContacts sMixed).map idKey = [("a"), ("B")] := by decide
  rw [hmap] at hpw
  have hab : ("a" : String) < "B" :=
    (List.pairwise_cons.mp hpw).1 ("B") (List.mem_singleton.mpr rfl)
  have hb : strLt ("a") ("B") = true := (strLt_iff _ _).mpr hab
  exact absurd hb (by decide)

/-- C2 amended: on every well-formed store the listing returns exactly
the stored contacts and leaves the store unchanged; it is ascending in
the collation order of the runtime comparator, and when all ids are
single-case ASCII alphanumeric strings — where collation and
lexicographic order coincide — it is strictly ascending in
lexicographic id order. -/
theorem C2_listAll_sorted (s : Store) (h : WFStore s)
    (hids : (∀ k ∈ s.map Prod.fst, k.data.all isLowerAlnumC = true) ∨
            (∀ k ∈ s.map Prod.fst, k.data.all isUpperAlnumC = true)) :
    (listContacts s).Perm (s.map Prod.snd) ∧
    ((listContacts s).map idKey).Pairwise (fun a b : String => a < b) ∧
    (listOp s).2 = s := by
  have hidOf : ∀ x ∈ s.map Prod.snd, ∃ k ∈ s.map Prod.fst, idKey x = k := by
    intro x hx
    rcases List.mem_map.mp hx with ⟨p, hp, rfl⟩
    refine ⟨p.1, List.mem_map.mpr ⟨p, hp, rfl⟩, ?_⟩
    have := h.2 p hp
    simp [idKey, this]
  have hcongr : listContacts s =
      List.insertionSort contactLeCU (s.map Prod.snd) := by
    rw [listContacts]
    apply insertionSort_congr
    intro x y hx hy
    rcases hidOf x hx with ⟨kx, hkx, hex⟩
    rcases hidOf y hy with ⟨ky, hky, hey⟩
    rw [contactLe, contactLeCU, hex, hey]
    rcases hids with hL | hU
    · rw [localeLe_eq_strLe isLowerAlnumC lower_primary_mono kx ky
        (hL kx hkx) (hL ky hky)]
    · rw [localeLe_eq_strLe isUpperAlnumC upper_primary_mono kx ky
        (hU kx hkx) (hU ky hky)]
  refine ⟨listContacts_perm s, ?_, rfl⟩
  rw [hcongr]
  exact cuSort_pairwise s h

/-- Witness for the amended C2 on a concrete two-record store inserted
out of id order, with uppercase alphanumeric ids. -/
theorem C2_listAll_sorted_witness :
    (WFStore demoStore2 ∧
      (∀ k ∈ demoStore2.map Prod.fst, k.data.all isUpperAlnumC = true)) ∧
    ((listContacts demoStore2).Perm (demoStore2.map Prod.snd) ∧
     ((listContacts demoStore2).map idKey).Pairwise (fun a b : String => a < b) ∧
     (listOp demoStore2).2 = demoStore2) :=
  ⟨⟨by decide, by decide⟩,
    C2_listAll_sorted demoStore2 (by decide) (Or.inr (by decide))⟩

/-- C4 counterexample: the claim states that adding a candidate whose
id equals the id of a stored contact always fails with the duplicate
validation error and leaves the store unchanged.  With the stored key
`"A1 "` (trailing space) a second candidate with the same raw id
passes validation (the duplicate check probes the trimmed id) and the
set silently overwrites the stored record. -/
theorem C4_counterexample :
    mapGet sSpace ("A1 ") = some cSpace ∧
    (addContact sSpace cSpace2).1 = AddRes.created ∧
    mapGet (addContact sSpace cSpace2).2 ("A1 ") = some cSpace2 ∧
    cSpace2 ≠ cSpace := by decide

/-- C4 amended: for a stored key equal to its own trim (nonempty, at
most 10 characters — true of every id accepted by validation), adding
a candidate with that id yields the duplicate-id validation error and
leaves the store unchanged. -/
theorem C4_duplicate_add_rejected (s : Store) (k : String) (cand : Contact)
    (hmem : k ∈ s.map Prod.fst) (htrim : jsTrim k = k) (hne : k ≠ "")
    (hlen : (jsTrim k).length ≤ 10) (hid : Contact.id cand = some k) :
    addContact s cand = (AddRes.vfail (validateContact s cand true), s) ∧
    (validateContact s cand true).id = some ("ID already exists") := by
  have hidErr : idError s true (Contact.id cand) = some ("ID already exists") := by
    rw [hid]
    simp only [idError]
    rw [if_neg (by rw [htrim]; intro h; exact hne (h.elim id id))]
    rw [if_neg (by omega)]
    rw [if_pos ?_]
    rw [htrim]
    simp only [Bool.true_and]
    exact (mapGet_isSome_iff s k).mpr hmem
  have hrid : (validateContact s cand true).id = some ("ID already exists") := by
    simp only [validateContact]
    exact hidErr
  refine ⟨?_, hrid⟩
  have hrep : reportIsEmpty (validateContact s cand true) = false := by
    simp only [reportIsEmpty, hrid]
    rfl
  simp only [addContact]
  rw [if_neg (by rw [hrep]; intro h; cases h)]

/-- Witness for the amended C4 at a concrete store and candidate. -/
theorem C4_duplicate_add_rejected_witness :
    (("A1" : String) ∈ demoStore.map Prod.fst ∧ jsTrim ("A1") = "A1" ∧
      ("A1" : String) ≠ "" ∧ (jsTrim ("A1")).length ≤ 10 ∧
      Contact.id cClean = some ("A1")) ∧
    (addContact demoStore cClean =
        (AddRes.vfail (validateContact demoStore cClean true), demoStore) ∧
      (validateContact demoStore cClean true).id = some ("ID already exists")) :=
  ⟨⟨by decide, by decide, by decide, by decide, rfl⟩,
    C4_duplicate_add_rejected demoStore ("A1") cClean (by decide) (by decide)
      (by decide) (by decide) rfl⟩

/-- C5: on a store with distinct keys, a successful add of candidate
`c` makes the point lookup on its id answer exactly the stored record
`c`; lookup of an id absent from a store answers NotFound; and the
binary search over the freshly sorted key array finds a key exactly
when it is present. -/
theorem C5_add_get_roundtrip (s : Store) (c : Contact) (k : String) (s' : Store)
    (hnd : (s.map Prod.fst).Nodup)
    (hid : Contact.id c = some k)
    (hadd : addContact s c = (AddRes.created, s')) :
    getContact s' k = GetRes.found c ∧
    (∀ j, j ∉ s.map Prod.fst → getContact s j = GetRes.notFound) ∧
    (∀ j, bsearchContains (sortedIds s) j = true ↔ j ∈ s.map Prod.fst) := by
  obtain ⟨hrep, hs'⟩ := addContact_created_inv s c s' hadd
  have hkey : c.id.getD ("") = k := by rw [hid]; rfl
  rw [hkey] at hs'
  have hiff : ∀ j, bsearchContains (sortedIds s) j = true ↔ j ∈ s.map Prod.fst := by
    intro j
    rw [bsearchContains_iff _ _ (sortedIds_pairwise s hnd)]
    exact mem_sortedIds s j
  refine ⟨?_, ?_, hiff⟩
  · have hnd' : (s'.map Prod.fst).Nodup := by
      rw [hs']
      exact nodup_keys_mapSet s k c hnd
    have hmem : k ∈ s'.map Prod.fst := by
      rw [hs']
      exact (mem_keys_mapSet s k k c).mpr (Or.inl rfl)
    have hb : bsearchContains (sortedIds s') k = true := by
      rw [bsearchContains_iff _ _ (sortedIds_pairwise s' hnd'), mem_sortedIds]
      exact hmem
    rw [getContact, if_pos hb, hs', mapGet_mapSet_self]
  · intro j hj
    have hb : bsearchContains (sortedIds s) j = false := by
      cases hb : bsearchContains (sortedIds s) j
      · rfl
      · exact absurd ((hiff j).mp hb) hj
    rw [getContact, if_neg (by rw [hb]; intro h; cases h)]

/-- Witness for C5: adding `cB2` to the one-record store and looking
its id up again. -/
theorem C5_add_get_roundtrip_witness :
    ((demoStore.map Prod.fst).Nodup ∧ Contact.id cB2 = some ("B2") ∧
      addContact demoStore cB2 = (AddRes.created, sC5)) ∧
    (getContact sC5 ("B2") = GetRes.found cB2 ∧
     (∀ j, j ∉ demoStore.map Prod.fst → getContact demoStore j = GetRes.notFound) ∧
     (∀ j, bsearchContains (sortedIds demoStore) j = true ↔
        j ∈ demoStore.map Prod.fst)) :=
  ⟨⟨by decide, rfl, by decide⟩,
    C5_add_get_roundtrip demoStore cB2 ("B2") sC5 (by decide) rfl (by decide)⟩

/-- C6: the phone validator accepts a string exactly when at least 10
digit characters remain after stripping whitespace, hyphens and
parentheses AND the original string matches the NANP-like pattern
(optional leading plus-one, optional separators between the 3-3-4
digit groups). -/
theorem C6_phone_accept_iff (s : String) :
    validatePhone (some s) = none ↔
      (10 ≤ ((s.data.filter (fun c => !(stripPhoneChar c))).filter isDigitC).length ∧
        phoneRegexTest s = true) := by
  have hkey : validatePhone (some s) =
      (if s = "" ∨ jsTrim s = "" then some ("Phone number is required")
       else if ((s.data.filter (fun c => !(stripPhoneChar c))).filter isDigitC).length < 10 then
         some ("Phone number must have at least 10 digits")
       else if phoneRegexTest s then none
       else some ("Please enter a valid phone number (e.g., +1-555-123-4567 or 555-123-4567)")) := by
    simp only [validatePhone]
  rw [hkey]
  by_cases h1 : s = "" ∨ jsTrim s = ""
  · rw [if_pos h1]
    constructor
    · intro h; cases h
    · rintro ⟨hd, _⟩
      exfalso
      have hne : (s.data.filter (fun c => !(stripPhoneChar c))).filter isDigitC ≠ [] := by
        intro h0
        rw [h0] at hd
        simp at hd
      rcases List.exists_mem_of_ne_nil _ hne with ⟨c, hc⟩
      have hcd : isDigitC c = true := (List.mem_filter.mp hc).2
      have hcs : c ∈ s.data :=
        List.mem_of_mem_filter (List.mem_of_mem_filter hc)
      rcases h1 with h1 | h1
      · rw [string_eq_empty_iff] at h1
        rw [h1] at hcs
        cases hcs
      · have htl : jsTrimList s.data = [] := congrArg String.data h1
        exact jsTrimList_ne_nil hcs (digit_not_ws c hcd) htl
  · rw [if_neg h1]
    by_cases h2 : ((s.data.filter (fun c => !(stripPhoneChar c))).filter isDigitC).length < 10
    · rw [if_pos h2]
      constructor
      · intro h; cases h
      · rintro ⟨hd, _⟩; omega
    · rw [if_neg h2]
      by_cases h3 : phoneRegexTest s = true
      · rw [if_pos h3]
        exact iff_of_true rfl ⟨by omega, h3⟩
      · rw [if_neg h3]
        constructor
        · intro h; cases h
        · rintro ⟨_, hm⟩; exact absurd hm h3

/-- Length of the singleton-or-empty list of an optional value. -/
theorem option_toList_length (o : Option String) :
    o.toList.length = if o.isSome then 1 else 0 := by
  cases o <;> rfl

/-- C7: validation evaluates every field rule and collects every
failing field: each entry of the report is present exactly when the
rule of that one field fails, independently of the other fields, and
the number of entries equals the number of failing rules, so no
failure is dropped by short-circuiting. -/
theorem C7_report_collects_all (s : Store) (c : Contact) (isNew : Bool) :
    ((validateContact s c isNew).id.isSome = (idError s isNew c.id).isSome) ∧
    ((validateContact s c isNew).firstName.isSome = isBlank c.firstName) ∧
    ((validateContact s c isNew).lastName.isSome = isBlank c.lastName) ∧
    ((validateContact s c isNew).email.isSome = (validateEmail c.email).isSome) ∧
    ((validateContact s c isNew).phone.isSome = (validatePhone c.phone).isSome) ∧
    ((validateContact s c isNew).address.isSome = (validateAddress c.address).isSome) ∧
    reportCount (validateContact s c isNew) =
      ((if (idError s isNew c.id).isSome then 1 else 0) +
       (if isBlank c.firstName then 1 else 0) +
       (if isBlank c.lastName then 1 else 0) +
       (if (validateEmail c.email).isSome then 1 else 0) +
       (if (validatePhone c.phone).isSome then 1 else 0) +
       (if (validateAddress c.address).isSome then 1 else 0)) := by
  refine ⟨rfl, ?_, ?_, rfl, rfl, rfl, ?_⟩
  · cases hb : isBlank c.firstName <;> simp [validateContact, hb]
  · cases hb : isBlank c.lastName <;> simp [validateContact, hb]
  · simp only [reportCount, validateContact, option_toList_length]
    cases hb1 : isBlank c.firstName <;> cases hb2 : isBlank c.lastName <;>
      simp [hb1, hb2]

/-- C8: validating is pure — it never changes the store, and running
the same validation a second time (on the state left by the first)
produces an identical report. -/
theorem C8_validate_pure (s : Store) (c : Contact) (isNew : Bool) :
    (validateOp s c isNew).2 = s ∧
    (validateOp ((validateOp s c isNew).2) c isNew).1 = (validateOp s c isNew).1 :=
  ⟨rfl, rfl⟩

/-- C9: a successful add stores the candidate under its raw id
verbatim: the untrimmed id retrieves exactly the candidate.  On the
concrete side: two valid candidates whose ids differ only in a
trailing space both get added (the store then holds two records whose
ids agree after trimming); a candidate whose raw id has 11 characters
but trims to 10 passes the length rule; and a candidate whose raw id
`"A1 "` trims to a stored key `"A1"` is rejected as a duplicate — so
both the length rule and the duplicate check probe the trimmed id
while storage keys the raw one. -/
theorem C9_raw_id_stored_rules_trimmed (s : Store) (c : Contact) (k : String)
    (s' : Store)
    (hadd : addContact s c = (AddRes.created, s')) (hk : Contact.id c = some k) :
    mapGet s' k = some c ∧
    ((addContact sSpace cClean).1 = AddRes.created ∧
     ((addContact sSpace cClean).2).map Prod.fst = [("A1 "), ("A1")] ∧
     jsTrim ("A1 ") = jsTrim ("A1") ∧
     ("A1 " : String) ≠ "A1" ∧
     (addContact [] cLong).1 = AddRes.created ∧
     (validateContact demoStore cSpace true).id = some ("ID already exists")) := by
  obtain ⟨_, hs'⟩ := addContact_created_inv s c s' hadd
  have hkey : c.id.getD ("") = k := by rw [hk]; rfl
  rw [hkey] at hs'
  refine ⟨?_, by decide⟩
  rw [hs']
  exact mapGet_mapSet_self s k c

/-- Witness for C9: the general half applied to the add that created
the store keyed by the raw `"A1 "`. -/
theorem C9_raw_id_stored_rules_trimmed_witness :
    (addContact [] cSpace = (AddRes.created, sSpace) ∧
      Contact.id cSpace = some ("A1 ")) ∧
    (mapGet sSpace ("A1 ") = some cSpace ∧
     ((addContact sSpace cClean).1 = AddRes.created ∧
      ((addContact sSpace cClean).2).map Prod.fst = [("A1 "), ("A1")] ∧
      jsTrim ("A1 ") = jsTrim ("A1") ∧
      ("A1 " : String) ≠ "A1" ∧
      (addContact [] cLong).1 = AddRes.created ∧
      (validateContact demoStore cSpace true).id = some ("ID already exists"))) :=
  ⟨⟨by decide, rfl⟩,
    C9_raw_id_stored_rules_trimmed [] cSpace ("A1 ") sSpace (by decide) rfl⟩

/-- A falsy body field leaves the stored field unchanged. -/
theorem merge_keeps_of_falsy (bf of : Option String) (h : truthy bf = false) :
    (if truthy bf then bf else of) = of := by
  rw [h]
  simp

/-- The merge of a non-empty stored field is never the empty string:
a truthy replacement is non-empty, a falsy one is ignored. -/
theorem merge_ne_empty (bf of : Option String) (v : String) (hv : of = some v)
    (hne : v ≠ "") : (if truthy bf then bf else of) ≠ some ("") := by
  by_cases ht : truthy bf = true
  · rw [if_pos ht]
    cases bf with
    | none => cases ht
    | some w =>
      intro he
      injection he with he
      subst he
      simp [truthy] at ht
  · rw [if_neg ht, hv]
    intro he
    injection he with he
    exact hne he

/-- C10: in the Map-backed partial-merge update, every field supplied
as absent or as the empty string is ignored and the prior stored value
is retained; consequently the record left in the store by an update on
a present key (its merge) never turns a previously non-empty field
into the empty string. -/
theorem C10_partial_merge_keeps_fields (s : Store) (i : String)
    (body old : Contact) (hold : mapGet s i = some old) :
    mapGet ((updateContact s i body).2) i = some (mergeContact old body) ∧
    (truthy body.firstName = false →
      (mergeContact old body).firstName = old.firstName) ∧
    (truthy body.lastName = false →
      (mergeContact old body).lastName = old.lastName) ∧
    (truthy body.phone = false → (mergeContact old body).phone = old.phone) ∧
    (truthy body.address = false →
      (mergeContact old body).address = old.address) ∧
    (truthy body.email = false → (mergeContact old body).email = old.email) ∧
    (∀ v, old.firstName = some v → v ≠ "" →
      (mergeContact old body).firstName ≠ some ("")) ∧
    (∀ v, old.lastName = some v → v ≠ "" →
      (mergeContact old body).lastName ≠ some ("")) ∧
    (∀ v, old.phone = some v → v ≠ "" →
      (mergeContact old body).phone ≠ some ("")) ∧
    (∀ v, old.address = some v → v ≠ "" →
      (mergeContact old body).address ≠ some ("")) ∧
    (∀ v, old.email = some v → v ≠ "" →
      (mergeContact old body).email ≠ some ("")) := by
  refine ⟨?_,
    fun h => merge_keeps_of_falsy _ _ h,
    fun h => merge_keeps_of_falsy _ _ h,
    fun h => merge_keeps_of_falsy _ _ h,
    fun h => merge_keeps_of_falsy _ _ h,
    fun h => merge_keeps_of_falsy _ _ h,
    fun v hv hne => merge_ne_empty _ _ v hv hne,
    fun v hv hne => merge_ne_empty _ _ v hv hne,
    fun v hv hne => merge_ne_empty _ _ v hv hne,
    fun v hv hne => merge_ne_empty _ _ v hv hne,
    fun v hv hne => merge_ne_empty _ _ v hv hne⟩
  rw [updateContact_found s i body old hold]
  exact mapGet_mapSet_self s i (mergeContact old body)

/-- Witness for C10 at a concrete store and a body that supplies one
name, an explicitly empty address and nothing else. -/
theorem C10_partial_merge_keeps_fields_witness :
    mapGet demoStore ("A1") = some demoC0 ∧
    (mapGet ((updateContact demoStore ("A1") bodyKeep).2) ("A1") =
        some (mergeContact demoC0 bodyKeep) ∧
      (truthy bodyKeep.firstName = false →
        (mergeContact demoC0 bodyKeep).firstName = demoC0.firstName) ∧
      (truthy bodyKeep.lastName = false →
        (mergeContact demoC0 bodyKeep).lastName = demoC0.lastName) ∧
      (truthy bodyKeep.phone = false →
        (mergeContact demoC0 bodyKeep).phone = demoC0.phone) ∧
      (truthy bodyKeep.address = false →
        (mergeContact demoC0 bodyKeep).address = demoC0.address) ∧
      (truthy bodyKeep.email = false →
        (mergeContact demoC0 bodyKeep).email = demoC0.email) ∧
      (∀ v, demoC0.firstName = some v → v ≠ "" →
        (mergeContact demoC0 bodyKeep).firstName ≠ some ("")) ∧
      (∀ v, demoC0.lastName = some v → v ≠ "" →
        (mergeContact demoC0 bodyKeep).lastName ≠ some ("")) ∧
      (∀ v, demoC0.phone = some v → v ≠ "" →
        (mergeContact demoC0 bodyKeep).phone ≠ some ("")) ∧
      (∀ v, demoC0.address = some v → v ≠ "" →
        (mergeContact demoC0 bodyKeep).address ≠ some ("")) ∧
      (∀ v, demoC0.email = some v → v ≠ "" →
        (mergeContact demoC0 bodyKeep).email ≠ some (""))) :=
  ⟨by decide, C10_partial_merge_keeps_fields demoStore ("A1") bodyKeep demoC0 (by decide)⟩
